import Mathlib

/-!
Shallow embedding of the JUCE `CallOutBox` component
(src/JuceLibraryCode/modules/juce_gui_basics/windows/juce_CallOutBox.cpp):
the popup placement solver (`updatePosition`), the outline rebuild
(`refreshPath`), hit testing (`hitTest`), the arrow-size setter
(`setArrowSize`) and the modal-input dismissal logic
(`inputAttemptWhenModal`).

Float arithmetic of the source is modelled exactly by rational numbers.
Rationals are represented as integer fractions with a positive denominator
(`Frac`), not necessarily reduced, so that every arithmetic operation and
comparison reduces inside the Lean kernel; `Frac.val` maps a fraction to
its mathematical value in `ℚ`, and real-valued statements (Euclidean
distances, scores) are phrased through that value cast into `ℝ`.

The geometry helpers of the host framework (`Rectangle`, `Point`, `Line`,
`Path`) are part of this repository but are not under src/; their
definitions below are modelled from the spec, as indicated by their doc
comments.
-/

/-- Exact rational value: an integer numerator over a positive integer
denominator, not necessarily in lowest terms.  Models the float values of
the source exactly (idealised real-valued semantics, no rounding). -/
structure Frac where
  num : ℤ
  den : ℤ
  den_pos : 0 < den

/-- Embed an integer as a fraction with denominator one. -/
def Frac.ofInt (n : ℤ) : Frac := ⟨n, 1, one_pos⟩

/-- Addition of fractions (cross multiplication, denominators multiply). -/
def Frac.add (a b : Frac) : Frac :=
  ⟨a.num * b.den + b.num * a.den, a.den * b.den, mul_pos a.den_pos b.den_pos⟩

/-- Negation of a fraction. -/
def Frac.neg (a : Frac) : Frac := ⟨-a.num, a.den, a.den_pos⟩

/-- Multiplication of fractions. -/
def Frac.mul (a b : Frac) : Frac :=
  ⟨a.num * b.num, a.den * b.den, mul_pos a.den_pos b.den_pos⟩

/-- Division of fractions; the denominator sign is normalised to stay
positive, and division by zero yields zero (never reached by the embedded
code, which guards the only division). -/
def Frac.div (a b : Frac) : Frac :=
  if h : 0 < b.num then ⟨a.num * b.den, a.den * b.num, mul_pos a.den_pos h⟩
  else if h2 : b.num < 0 then
    ⟨-(a.num * b.den), a.den * (-b.num), mul_pos a.den_pos (by omega)⟩
  else Frac.ofInt 0

instance : Add Frac := ⟨Frac.add⟩

instance : Neg Frac := ⟨Frac.neg⟩

instance : Sub Frac := ⟨fun a b => a + -b⟩

instance : Mul Frac := ⟨Frac.mul⟩

instance : Div Frac := ⟨Frac.div⟩

instance : LT Frac := ⟨fun a b => a.num * b.den < b.num * a.den⟩

instance : LE Frac := ⟨fun a b => a.num * b.den ≤ b.num * a.den⟩

instance (a b : Frac) : Decidable (a < b) := inferInstanceAs (Decidable (_ < _))

instance (a b : Frac) : Decidable (a ≤ b) := inferInstanceAs (Decidable (_ ≤ _))

/-- The mathematical value of a fraction. -/
def Frac.val (a : Frac) : ℚ := (a.num : ℚ) / (a.den : ℚ)

theorem Frac.den_cast_ne (a : Frac) : ((a.den : ℚ)) ≠ 0 := by
  exact_mod_cast a.den_pos.ne'

theorem Frac.den_cast_pos (a : Frac) : (0 : ℚ) < (a.den : ℚ) := by
  exact_mod_cast a.den_pos

theorem Frac.val_ofInt (n : ℤ) : (Frac.ofInt n).val = (n : ℚ) := by
  simp [Frac.val, Frac.ofInt]

theorem Frac.add_def (a b : Frac) : a + b = a.add b := rfl

theorem Frac.neg_def (a : Frac) : -a = a.neg := rfl

theorem Frac.sub_def (a b : Frac) : a - b = a + -b := rfl

theorem Frac.mul_def (a b : Frac) : a * b = a.mul b := rfl

theorem Frac.div_def (a b : Frac) : a / b = a.div b := rfl

theorem Frac.val_add (a b : Frac) : (a + b).val = a.val + b.val := by
  rw [Frac.add_def]
  simp only [Frac.add, Frac.val]
  rw [div_add_div _ _ a.den_cast_ne b.den_cast_ne]
  push_cast
  ring_nf

theorem Frac.val_neg (a : Frac) : (-a).val = -a.val := by
  rw [Frac.neg_def]
  simp [Frac.neg, Frac.val, neg_div]

theorem Frac.val_sub (a b : Frac) : (a - b).val = a.val - b.val := by
  rw [Frac.sub_def, Frac.val_add, Frac.val_neg, sub_eq_add_neg]

theorem Frac.val_mul (a b : Frac) : (a * b).val = a.val * b.val := by
  rw [Frac.mul_def]
  simp only [Frac.mul, Frac.val]
  push_cast
  rw [div_mul_div_comm]

theorem Frac.val_div (a b : Frac) : (a / b).val = a.val / b.val := by
  rw [Frac.div_def]
  unfold Frac.div
  split_ifs with h1 h2
  · have hbn : ((b.num : ℚ)) ≠ 0 := by exact_mod_cast h1.ne'
    have had := a.den_cast_ne
    have hbd := b.den_cast_ne
    simp only [Frac.val]
    push_cast
    field_simp
  · have hbn : ((b.num : ℚ)) ≠ 0 := by exact_mod_cast h2.ne
    have had := a.den_cast_ne
    have hbd := b.den_cast_ne
    simp only [Frac.val]
    push_cast
    field_simp
  · have hb : b.num = 0 := by omega
    simp [Frac.val, Frac.ofInt, hb]

theorem Frac.lt_iff (a b : Frac) : a < b ↔ a.val < b.val := by
  show a.num * b.den < b.num * a.den ↔ _
  rw [Frac.val, Frac.val, div_lt_div_iff₀ a.den_cast_pos b.den_cast_pos]
  exact_mod_cast Iff.rfl

theorem Frac.le_iff (a b : Frac) : a ≤ b ↔ a.val ≤ b.val := by
  show a.num * b.den ≤ b.num * a.den ↔ _
  rw [Frac.val, Frac.val, div_le_div_iff₀ a.den_cast_pos b.den_cast_pos]
  exact_mod_cast Iff.rfl

/-- Semantic (value) equality test for fractions. -/
def Frac.beq (a b : Frac) : Bool := a.num * b.den == b.num * a.den

theorem Frac.beq_iff (a b : Frac) : a.beq b = true ↔ a.val = b.val := by
  unfold Frac.beq
  rw [beq_iff_eq, Frac.val, Frac.val, div_eq_div_iff a.den_cast_ne b.den_cast_ne]
  exact_mod_cast Iff.rfl

/-- Truncation of a fraction toward zero: the semantics of the C cast
`(int) x` applied to a float value, used by the source at
`(int) arrowSize` and `(int) (centre.x - hw)`. -/
def cTrunc (q : Frac) : ℤ := Int.tdiv q.num q.den

theorem cTrunc_gt_sub_one (q : Frac) : q.val - 1 < (cTrunc q : ℚ) := by
  have hd := q.den_pos
  have hdq : (0 : ℚ) < (q.den : ℚ) := q.den_cast_pos
  have key : q.num < (q.num.tdiv q.den + 1) * q.den := by
    have hexp : (q.num.tdiv q.den + 1) * q.den = q.den * q.num.tdiv q.den + q.den := by
      ring
    rcases le_or_lt 0 q.num with hn | hn
    · have h1 : 0 ≤ q.num.tmod q.den := Int.tmod_nonneg q.den hn
      have h2 : q.num.tmod q.den < q.den := Int.tmod_lt_of_pos _ hd
      have hmod := Int.tmod_add_tdiv q.num q.den
      omega
    · have hm1 : 0 ≤ (-q.num).tmod q.den := Int.tmod_nonneg q.den (by omega)
      have hmod := Int.tmod_add_tdiv (-q.num) q.den
      have heq : q.num.tdiv q.den = -((-q.num).tdiv q.den) := by
        have h3 := Int.neg_tdiv (-q.num) q.den
        rw [neg_neg] at h3
        omega
      have hgoal : q.num < q.den * q.num.tdiv q.den + q.den := by
        rw [heq, mul_neg]
        omega
      omega
  rw [Frac.val, sub_lt_iff_lt_add, div_lt_iff₀ hdq, cTrunc]
  calc (q.num : ℚ) < (((q.num.tdiv q.den + 1) * q.den : ℤ) : ℚ) := by exact_mod_cast key
    _ = ((q.num.tdiv q.den : ℚ) + 1) * (q.den : ℚ) := by push_cast; ring

theorem Frac.nonneg_val {a : Frac} (h : Frac.ofInt 0 ≤ a) : (0 : ℚ) ≤ a.val := by
  have := (Frac.le_iff (Frac.ofInt 0) a).mp h
  rwa [Frac.val_ofInt] at this

/-- A point with integer coordinates (host framework `Point<int>`). -/
structure IntPoint where
  x : ℤ
  y : ℤ
deriving DecidableEq

/-- An axis-aligned rectangle with integer position and size (host
framework `Rectangle<int>`). -/
structure IntRect where
  x : ℤ
  y : ℤ
  w : ℤ
  h : ℤ
deriving DecidableEq

/-- Modelled from the spec: right edge coordinate of a target/available
rectangle (host framework `Rectangle<int>::getRight`, not under src/). -/
def IntRect.getRight (r : IntRect) : ℤ := r.x + r.w

/-- Modelled from the spec: bottom edge coordinate of a rectangle (host
framework `Rectangle<int>::getBottom`, not under src/). -/
def IntRect.getBottom (r : IntRect) : ℤ := r.y + r.h

/-- Modelled from the spec: horizontal centre of a rectangle, with the
half-width computed in truncating integer division as in the host
framework (`Rectangle<int>::getCentreX`, not under src/). -/
def IntRect.getCentreX (r : IntRect) : ℤ := r.x + Int.tdiv r.w 2

/-- Modelled from the spec: vertical centre of a rectangle (host framework
`Rectangle<int>::getCentreY`, not under src/). -/
def IntRect.getCentreY (r : IntRect) : ℤ := r.y + Int.tdiv r.h 2

/-- Modelled from the spec: centre point of a rectangle (host framework
`Rectangle<int>::getCentre`, not under src/). -/
def IntRect.getCentre (r : IntRect) : IntPoint := ⟨r.getCentreX, r.getCentreY⟩

/-- Modelled from the spec: the rectangle shrunk by `dx` on the left and
right and by `dy` on the top and bottom; the resulting width and height
may be negative (host framework `Rectangle::reduced`, not under src/). -/
def IntRect.reduced (r : IntRect) (dx dy : ℤ) : IntRect :=
  ⟨r.x + dx, r.y + dy, r.w - 2 * dx, r.h - 2 * dy⟩

/-- Modelled from the spec: half-open point containment of an integer
rectangle (host framework `Rectangle<int>::contains`, not under src/). -/
def IntRect.containsPt (r : IntRect) (p : IntPoint) : Bool :=
  decide (r.x ≤ p.x) && decide (r.y ≤ p.y) &&
    decide (p.x < r.x + r.w) && decide (p.y < r.y + r.h)

/-- A point with exact-rational (modelled float) coordinates (host
framework `Point<float>`). -/
structure FPoint where
  x : Frac
  y : Frac

/-- Modelled from the spec: componentwise translation of a float point
(host framework `Point::translated`, not under src/). -/
def FPoint.translated (p : FPoint) (dx dy : Frac) : FPoint := ⟨p.x + dx, p.y + dy⟩

/-- Convert an integer point to float coordinates. -/
def IntPoint.toF (p : IntPoint) : FPoint := ⟨Frac.ofInt p.x, Frac.ofInt p.y⟩

/-- A rectangle with exact-rational (modelled float) coordinates (host
framework `Rectangle<float>`). -/
structure FRect where
  x : Frac
  y : Frac
  w : Frac
  h : Frac

/-- Convert an integer rectangle to float coordinates. -/
def IntRect.toF (r : IntRect) : FRect :=
  ⟨Frac.ofInt r.x, Frac.ofInt r.y, Frac.ofInt r.w, Frac.ofInt r.h⟩

/-- Modelled from the spec: half-open point containment of a float
rectangle (host framework `Rectangle<float>::contains`, not under src/). -/
def FRect.containsPt (r : FRect) (p : FPoint) : Bool :=
  decide (r.x ≤ p.x) && decide (r.y ≤ p.y) &&
    decide (p.x < r.x + r.w) && decide (p.y < r.y + r.h)

/-- Proposition form of `FRect.containsPt`. -/
def FRect.containsProp (r : FRect) (p : FPoint) : Prop :=
  r.x ≤ p.x ∧ r.y ≤ p.y ∧ p.x < r.x + r.w ∧ p.y < r.y + r.h

instance (r : FRect) (p : FPoint) : Decidable (r.containsProp p) :=
  inferInstanceAs (Decidable (_ ∧ _ ∧ _ ∧ _))

theorem FRect.containsPt_iff (r : FRect) (p : FPoint) :
    r.containsPt p = true ↔ r.containsProp p := by
  unfold FRect.containsPt FRect.containsProp
  simp [and_assoc]

/-- Modelled from the spec: clamp a value into the closed interval from
`lo` to `hi`; when the interval is inverted (`hi < lo`, a degenerate
reduced area) the conditional structure of the host framework helper
`jlimit` is kept (not under src/). -/
def jlimit (lo hi v : Frac) : Frac := if v < lo then lo else if hi < v then hi else v

/-- Modelled from the spec: coordinate-wise clamp of a point into a
rectangle, the nearest point inside it (host framework
`Rectangle::getConstrainedPoint`, not under src/). -/
def FRect.getConstrainedPoint (r : FRect) (p : FPoint) : FPoint :=
  ⟨jlimit r.x (r.x + r.w) p.x, jlimit r.y (r.y + r.h) p.y⟩

/-- A line segment between two float points (host framework
`Line<float>`). -/
structure FLine where
  p1 : FPoint
  p2 : FPoint

/-- Squared Euclidean distance between two float points. -/
def distSq (p q : FPoint) : Frac :=
  (p.x - q.x) * (p.x - q.x) + (p.y - q.y) * (p.y - q.y)

theorem distSq_nonneg (p q : FPoint) : Frac.ofInt 0 ≤ distSq p q := by
  rw [Frac.le_iff, Frac.val_ofInt, distSq, Frac.val_add, Frac.val_mul, Frac.val_mul]
  have h1 := mul_self_nonneg (p.x - q.x).val
  have h2 := mul_self_nonneg (p.y - q.y).val
  push_cast
  linarith

/-- Modelled from the spec: the point of a (possibly degenerate) segment
nearest to a target point, by clamped orthogonal projection (host
framework `Line::findNearestPointTo`, not under src/). -/
def FLine.findNearestPointTo (l : FLine) (t : FPoint) : FPoint :=
  let vx := l.p2.x - l.p1.x
  let vy := l.p2.y - l.p1.y
  let len := vx * vx + vy * vy
  let prop :=
    if len ≤ Frac.ofInt 0 then Frac.ofInt 0
    else jlimit (Frac.ofInt 0) (Frac.ofInt 1)
      (((t.x - l.p1.x) * vx + (t.y - l.p1.y) * vy) / len)
  ⟨l.p1.x + prop * vx, l.p1.y + prop * vy⟩

/-- A candidate-edge score as computed by `updatePosition`: the squared
distance from the tentative centre to the edge anchor, together with the
flag recording whether the 1000-unit penalty was added.  The value this
pair denotes is `Real.sqrt dSq.val + (if pen then 1000 else 0)`. -/
structure Score where
  pen : Bool
  dSq : Frac
  nonneg : Frac.ofInt 0 ≤ dSq

/-- The real value denoted by a score: the stage at which the source
compares `distanceFromCentre` values with `<`. -/
def ScoreLtR (s t : Score) : Prop :=
  Real.sqrt ((s.dSq.val : ℚ) : ℝ) + (if s.pen then (1000 : ℝ) else 0) <
    Real.sqrt ((t.dSq.val : ℚ) : ℝ) + (if t.pen then (1000 : ℝ) else 0)

/-- Non-strict version of `ScoreLtR`. -/
def ScoreLeR (s t : Score) : Prop :=
  Real.sqrt ((s.dSq.val : ℚ) : ℝ) + (if s.pen then (1000 : ℝ) else 0) ≤
    Real.sqrt ((t.dSq.val : ℚ) : ℝ) + (if t.pen then (1000 : ℝ) else 0)

/-- Executable comparison of two scores, equivalent (see `Score.ltB_iff`)
to comparing their real values: square roots are eliminated by case
analysis on the two penalty flags and exact rational arithmetic. -/
def Score.ltB (s t : Score) : Bool :=
  match s.pen, t.pen with
  | false, false => decide (s.dSq < t.dSq)
  | true, true => decide (s.dSq < t.dSq)
  | false, true =>
      decide (s.dSq < t.dSq + Frac.ofInt 1000000) ||
        decide ((s.dSq - t.dSq - Frac.ofInt 1000000) * (s.dSq - t.dSq - Frac.ofInt 1000000) <
          Frac.ofInt 4000000 * t.dSq)
  | true, false =>
      decide (Frac.ofInt 0 < t.dSq - s.dSq - Frac.ofInt 1000000) &&
        decide (Frac.ofInt 4000000 * s.dSq <
          (t.dSq - s.dSq - Frac.ofInt 1000000) * (t.dSq - s.dSq - Frac.ofInt 1000000))

theorem sqrt_lt_add_thousand (a b : ℝ) (hb : 0 ≤ b) :
    Real.sqrt a < Real.sqrt b + 1000 ↔
      (a < b + 1000000 ∨ (a - b - 1000000) * (a - b - 1000000) < 4000000 * b) := by
  have hpos : (0 : ℝ) < Real.sqrt b + 1000 := by positivity
  rw [Real.sqrt_lt' hpos]
  have hsq : (Real.sqrt b + 1000) ^ 2 = b + 2000 * Real.sqrt b + 1000000 := by
    rw [add_sq, Real.sq_sqrt hb]
    ring
  rw [hsq]
  have hsnn : 0 ≤ Real.sqrt b := Real.sqrt_nonneg b
  have hss : Real.sqrt b * Real.sqrt b = b := Real.mul_self_sqrt hb
  constructor
  · intro h
    by_cases hc : a < b + 1000000
    · exact Or.inl hc
    · push_neg at hc
      have hc2 : 0 ≤ a - b - 1000000 := by linarith
      have hlt : a - b - 1000000 < 2000 * Real.sqrt b := by linarith
      exact Or.inr (by nlinarith [hlt, hc2, hss, hsnn])
  · intro h
    rcases h with h | h
    · nlinarith [hsnn]
    · by_cases hc : a - b - 1000000 < 0
      · linarith
      · push_neg at hc
        nlinarith [hss, hsnn, hc, h]

theorem add_thousand_lt_sqrt (a b : ℝ) (ha : 0 ≤ a) :
    Real.sqrt a + 1000 < Real.sqrt b ↔
      (0 < b - a - 1000000 ∧
        4000000 * a < (b - a - 1000000) * (b - a - 1000000)) := by
  have hnn : (0 : ℝ) ≤ Real.sqrt a + 1000 := by positivity
  rw [Real.lt_sqrt hnn]
  have hsq : (Real.sqrt a + 1000) ^ 2 = a + 2000 * Real.sqrt a + 1000000 := by
    rw [add_sq, Real.sq_sqrt ha]
    ring
  rw [hsq]
  have hsnn : 0 ≤ Real.sqrt a := Real.sqrt_nonneg a
  have hss : Real.sqrt a * Real.sqrt a = a := Real.mul_self_sqrt ha
  constructor
  · intro h
    have h1 : 2000 * Real.sqrt a < b - a - 1000000 := by linarith
    have h2 : (0 : ℝ) < b - a - 1000000 := by linarith
    exact ⟨h2, by nlinarith [h1, hsnn, hss]⟩
  · rintro ⟨h1, h2⟩
    have h3 : 2000 * Real.sqrt a < b - a - 1000000 := by
      by_contra hcon
      push_neg at hcon
      nlinarith [hss, hsnn, hcon, h1, h2]
    linarith

theorem Score.ltB_iff (s t : Score) : s.ltB t = true ↔ ScoreLtR s t := by
  have ha : (0 : ℝ) ≤ ((s.dSq.val : ℚ) : ℝ) := by
    exact_mod_cast Frac.nonneg_val s.nonneg
  have hb : (0 : ℝ) ≤ ((t.dSq.val : ℚ) : ℝ) := by
    exact_mod_cast Frac.nonneg_val t.nonneg
  have hif0 : (if (false = true) then (1000 : ℝ) else 0) = 0 := by norm_num
  have hif1 : (if (true = true) then (1000 : ℝ) else 0) = 1000 := by norm_num
  unfold Score.ltB ScoreLtR
  cases hsp : s.pen <;> cases htp : t.pen <;>
    simp only [Bool.or_eq_true, Bool.and_eq_true, decide_eq_true_eq, hif0, hif1,
      if_true, if_false, add_zero]
  · rw [Frac.lt_iff, Real.sqrt_lt_sqrt_iff ha]
    exact_mod_cast Iff.rfl
  · rw [sqrt_lt_add_thousand _ _ hb]
    simp only [Frac.lt_iff, Frac.val_add, Frac.val_sub, Frac.val_mul, Frac.val_ofInt]
    constructor
    · rintro (h | h)
      · exact Or.inl (by exact_mod_cast h)
      · exact Or.inr (by exact_mod_cast h)
    · rintro (h | h)
      · exact Or.inl (by exact_mod_cast h)
      · exact Or.inr (by exact_mod_cast h)
  · rw [add_thousand_lt_sqrt _ _ ha]
    simp only [Frac.lt_iff, Frac.val_add, Frac.val_sub, Frac.val_mul, Frac.val_ofInt]
    constructor
    · rintro ⟨h1, h2⟩
      exact ⟨by exact_mod_cast h1, by exact_mod_cast h2⟩
    · rintro ⟨h1, h2⟩
      exact ⟨by exact_mod_cast h1, by exact_mod_cast h2⟩
  · rw [add_lt_add_iff_right, Frac.lt_iff, Real.sqrt_lt_sqrt_iff ha]
    exact_mod_cast Iff.rfl

theorem Score.not_ltB (s t : Score) (h : s.ltB t = false) : ScoreLeR t s := by
  have h2 : ¬ ScoreLtR s t := by
    rw [← Score.ltB_iff, h]
    simp
  unfold ScoreLtR at h2
  unfold ScoreLeR
  linarith [not_lt.mp h2]

/-- The inputs of one placement pass of `CallOutBox::updatePosition`: the
two rectangles passed in, the hosted content size read from `content`, and
the `borderSpace` and `arrowSize` members. -/
structure PlaceInput where
  targetArea : IntRect
  availableArea : IntRect
  contentW : ℤ
  contentH : ℤ
  borderSpace : ℤ
  arrowSize : Frac

/-- Width of `newBounds`: `content.getWidth() + borderSpace * 2`. -/
def popupW (inp : PlaceInput) : ℤ := inp.contentW + inp.borderSpace * 2

/-- Height of `newBounds`: `content.getHeight() + borderSpace * 2`. -/
def popupH (inp : PlaceInput) : ℤ := inp.contentH + inp.borderSpace * 2

/-- `hw = newBounds.getWidth() / 2` (truncating integer division). -/
def hw (inp : PlaceInput) : ℤ := Int.tdiv (popupW inp) 2

/-- `hh = newBounds.getHeight() / 2`. -/
def hh (inp : PlaceInput) : ℤ := Int.tdiv (popupH inp) 2

/-- `hwReduced = (float) (hw - borderSpace * 3)`. -/
def hwReduced (inp : PlaceInput) : Frac := Frac.ofInt (hw inp - inp.borderSpace * 3)

/-- `hhReduced = (float) (hh - borderSpace * 3)`. -/
def hhReduced (inp : PlaceInput) : Frac := Frac.ofInt (hh inp - inp.borderSpace * 3)

/-- `arrowIndent = borderSpace - arrowSize`. -/
def arrowIndent (inp : PlaceInput) : Frac := Frac.ofInt inp.borderSpace - inp.arrowSize

/-- The four candidate anchor points `targets[4]`, in the enumeration
order of the source: bottom-centre, right-centre, left-centre,
top-centre of the target area. -/
def targets (inp : PlaceInput) : Fin 4 → FPoint
  | ⟨0, _⟩ => ⟨Frac.ofInt inp.targetArea.getCentreX, Frac.ofInt inp.targetArea.getBottom⟩
  | ⟨1, _⟩ => ⟨Frac.ofInt inp.targetArea.getRight, Frac.ofInt inp.targetArea.getCentreY⟩
  | ⟨2, _⟩ => ⟨Frac.ofInt inp.targetArea.x, Frac.ofInt inp.targetArea.getCentreY⟩
  | ⟨3, _⟩ => ⟨Frac.ofInt inp.targetArea.getCentreX, Frac.ofInt inp.targetArea.y⟩
  | ⟨n + 4, hlt⟩ => absurd hlt (by omega)

/-- The four probe segments `lines[4]` of the source, obtained by
translating each anchor point. -/
def probeLines (inp : PlaceInput) : Fin 4 → FLine
  | ⟨0, _⟩ =>
      ⟨(targets inp 0).translated (-hwReduced inp)
          (Frac.ofInt (hh inp) - arrowIndent inp),
        (targets inp 0).translated (hwReduced inp)
          (Frac.ofInt (hh inp) - arrowIndent inp)⟩
  | ⟨1, _⟩ =>
      ⟨(targets inp 1).translated (Frac.ofInt (hw inp) - arrowIndent inp)
          (-hhReduced inp),
        (targets inp 1).translated (Frac.ofInt (hw inp) - arrowIndent inp)
          (hhReduced inp)⟩
  | ⟨2, _⟩ =>
      ⟨(targets inp 2).translated (-(Frac.ofInt (hw inp) - arrowIndent inp))
          (-hhReduced inp),
        (targets inp 2).translated (-(Frac.ofInt (hw inp) - arrowIndent inp))
          (hhReduced inp)⟩
  | ⟨3, _⟩ =>
      ⟨(targets inp 3).translated (-hwReduced inp)
          (-(Frac.ofInt (hh inp) - arrowIndent inp)),
        (targets inp 3).translated (hwReduced inp)
          (-(Frac.ofInt (hh inp) - arrowIndent inp))⟩
  | ⟨n + 4, hlt⟩ => absurd hlt (by omega)

/-- `centrePointArea = newAreaToFitIn.reduced (hw, hh).toFloat()`. -/
def centrePointArea (inp : PlaceInput) : FRect :=
  (inp.availableArea.reduced (hw inp) (hh inp)).toF

/-- `targetCentre = targetArea.getCentre().toFloat()`. -/
def targetCentre (inp : PlaceInput) : FPoint := inp.targetArea.getCentre.toF

/-- The clamped probe segment `constrainedLine` for candidate edge `i`. -/
def constrainedLine (inp : PlaceInput) (i : Fin 4) : FLine :=
  ⟨(centrePointArea inp).getConstrainedPoint (probeLines inp i).p1,
    (centrePointArea inp).getConstrainedPoint (probeLines inp i).p2⟩

/-- The tentative popup centre for candidate edge `i`:
`constrainedLine.findNearestPointTo (targetCentre)`. -/
def tentativeCentre (inp : PlaceInput) (i : Fin 4) : FPoint :=
  (constrainedLine inp i).findNearestPointTo (targetCentre inp)

/-- Whether the 1000-unit penalty applies to candidate edge `i`: neither
original (unclamped) probe endpoint lies inside `centrePointArea`. -/
def penalizedB (inp : PlaceInput) (i : Fin 4) : Bool :=
  !((centrePointArea inp).containsPt (probeLines inp i).p1 ||
    (centrePointArea inp).containsPt (probeLines inp i).p2)

/-- The score of candidate edge `i`: distance from the tentative centre to
`targets[i]`, plus 1000 when penalised (represented exactly as a squared
distance and a penalty flag, compared through `Score.ltB`). -/
def candScore (inp : PlaceInput) (i : Fin 4) : Score :=
  ⟨penalizedB inp i, distSq (tentativeCentre inp i) (targets inp i),
    distSq_nonneg _ _⟩

/-- `float nearest = 1.0e9f`: the initial running minimum, representable
exactly (its squared value is `10^18`). -/
def initialNearest : Score :=
  ⟨false, Frac.ofInt 1000000000000000000, by decide⟩

/-- The loop state of `updatePosition`: the running minimum, the
`targetPoint` member and the position of `newBounds`. -/
structure PlaceState where
  nearest : Score
  targetPoint : FPoint
  posX : ℤ
  posY : ℤ

/-- One iteration of the `for (int i = 0; i < 4; ++i)` loop of
`updatePosition`: if this candidate scores strictly below the running
minimum, record its score, anchor point and the truncated position
`(int) (centre.x - hw), (int) (centre.y - hh)`. -/
def placeStep (inp : PlaceInput) (st : PlaceState) (i : Fin 4) : PlaceState :=
  if Score.ltB (candScore inp i) st.nearest then
    { nearest := candScore inp i
      targetPoint := targets inp i
      posX := cTrunc ((tentativeCentre inp i).x - Frac.ofInt (hw inp))
      posY := cTrunc ((tentativeCentre inp i).y - Frac.ofInt (hh inp)) }
  else st

/-- The complete selection loop of `updatePosition`, starting from the
sentinel minimum, the previous `targetPoint` member value `tp0` and the
origin position of the freshly constructed `newBounds`. -/
def placeResult (inp : PlaceInput) (tp0 : FPoint) : PlaceState :=
  List.foldl (placeStep inp) ⟨initialNearest, tp0, 0, 0⟩ [0, 1, 2, 3]

/-- Instrumented copy of the selection loop that records which candidate
edge last improved the running minimum (`none` when no candidate ever
beat the sentinel). -/
def selStep (inp : PlaceInput) (st : Score × Option (Fin 4)) (i : Fin 4) :
    Score × Option (Fin 4) :=
  if Score.ltB (candScore inp i) st.1 then (candScore inp i, some i) else st

/-- The candidate edge chosen by a placement pass, if any. -/
def chosenEdge (inp : PlaceInput) : Option (Fin 4) :=
  (List.foldl (selStep inp) (initialNearest, none) [0, 1, 2, 3]).2

/-- Modelled from the spec: the parameters of the bubble outline built by
the host framework `Path::addBubble` (not under src/): a rounded
rectangle following the expanded content bounds, constrained to the local
bounds, with a triangular notch whose apex is the arrow tip and whose
base half-width is `arrowBaseWidth`. -/
structure Bubble where
  body : FRect
  maximumArea : FRect
  tip : FPoint
  cornerSize : Frac
  arrowBaseWidth : Frac

/-- Absolute value of a fraction. -/
def Frac.fabs (a : Frac) : Frac := if a < Frac.ofInt 0 then -a else a

/-- Modelled from the spec: the triangular notch of the bubble, attached
to whichever body edge is nearest the apex (`Path::addBubble`, not under
src/): apex at the tip, base of half-width `arrowBaseWidth` centred at
the apex abscissa on that edge. -/
def Bubble.arrowTri (b : Bubble) : FPoint × FPoint × FPoint :=
  let r := b.body
  let rightEdge := r.x + r.w
  let bottomEdge := r.y + r.h
  let dL := Frac.fabs (b.tip.x - r.x)
  let dR := Frac.fabs (b.tip.x - rightEdge)
  let dT := Frac.fabs (b.tip.y - r.y)
  let dB := Frac.fabs (b.tip.y - bottomEdge)
  if dT ≤ dB ∧ dT ≤ dL ∧ dT ≤ dR then
    (b.tip, ⟨b.tip.x - b.arrowBaseWidth, r.y⟩, ⟨b.tip.x + b.arrowBaseWidth, r.y⟩)
  else if dB ≤ dL ∧ dB ≤ dR then
    (b.tip, ⟨b.tip.x - b.arrowBaseWidth, bottomEdge⟩, ⟨b.tip.x + b.arrowBaseWidth, bottomEdge⟩)
  else if dL ≤ dR then
    (b.tip, ⟨r.x, b.tip.y - b.arrowBaseWidth⟩, ⟨r.x, b.tip.y + b.arrowBaseWidth⟩)
  else
    (b.tip, ⟨rightEdge, b.tip.y - b.arrowBaseWidth⟩, ⟨rightEdge, b.tip.y + b.arrowBaseWidth⟩)

/-- Twice the signed area of the triangle `o a p`: the orientation test
used for point-in-triangle containment. -/
def orient2 (o a p : FPoint) : Frac :=
  (a.x - o.x) * (p.y - o.y) - (a.y - o.y) * (p.x - o.x)

/-- Point-in-triangle test: the point lies on a consistent side of all
three directed edges. -/
def triContainsPt (a b c p : FPoint) : Bool :=
  (decide (Frac.ofInt 0 ≤ orient2 a b p) && decide (Frac.ofInt 0 ≤ orient2 b c p) &&
      decide (Frac.ofInt 0 ≤ orient2 c a p)) ||
    (decide (orient2 a b p ≤ Frac.ofInt 0) && decide (orient2 b c p ≤ Frac.ofInt 0) &&
      decide (orient2 c a p ≤ Frac.ofInt 0))

/-- Modelled from the spec: containment in a rounded rectangle of corner
radius `cs` — inside the bounding rectangle, and inside the quarter-disc
at each of the four rounded corners (`Path::contains` on the bubble body,
not under src/). -/
def roundedRectContainsPt (r : FRect) (cs : Frac) (p : FPoint) : Bool :=
  let rightEdge := r.x + r.w
  let bottomEdge := r.y + r.h
  decide (r.x ≤ p.x) && decide (p.x ≤ rightEdge) &&
    decide (r.y ≤ p.y) && decide (p.y ≤ bottomEdge) &&
    (!(decide (p.x < r.x + cs) && decide (p.y < r.y + cs)) ||
      decide (distSq p ⟨r.x + cs, r.y + cs⟩ ≤ cs * cs)) &&
    (!(decide (rightEdge - cs < p.x) && decide (p.y < r.y + cs)) ||
      decide (distSq p ⟨rightEdge - cs, r.y + cs⟩ ≤ cs * cs)) &&
    (!(decide (p.x < r.x + cs) && decide (bottomEdge - cs < p.y)) ||
      decide (distSq p ⟨r.x + cs, bottomEdge - cs⟩ ≤ cs * cs)) &&
    (!(decide (rightEdge - cs < p.x) && decide (bottomEdge - cs < p.y)) ||
      decide (distSq p ⟨rightEdge - cs, bottomEdge - cs⟩ ≤ cs * cs))

/-- Modelled from the spec: point containment in the bubble outline — the
rounded body or the triangular arrow notch (`Path::contains`, not under
src/). -/
def Bubble.containsPt (b : Bubble) (p : FPoint) : Bool :=
  roundedRectContainsPt b.body b.cornerSize p ||
    (let t := b.arrowTri
     triContainsPt t.1 t.2.1 t.2.2 p)

/-- The full modelled state of a `CallOutBox` instance: its geometry
members (`borderSpace`, `arrowSize`, `content`, `targetArea`,
`availableArea`, `targetPoint`, `outline`, `background`) together with
the host-framework component state it manipulates (bounds, visibility,
modal session, posted command messages). -/
structure CallOutBox where
  borderSpace : ℤ
  arrowSize : Frac
  contentW : ℤ
  contentH : ℤ
  contentPos : IntPoint
  bounds : IntRect
  targetArea : IntRect
  availableArea : IntRect
  targetPoint : FPoint
  outline : Option Bubble
  background : Option Unit
  visible : Bool
  modal : Bool
  exitCode : Option ℤ
  pending : List ℤ

/-- `gap = 4.5f` in `refreshPath`. -/
def bubbleGap : Frac := ⟨9, 2, by norm_num⟩

/-- Modelled from the spec: `Rectangle<float>::expanded` grows the
rectangle by `dx` and `dy` on each side (not under src/). -/
def FRect.expandedBy (r : FRect) (dx dy : Frac) : FRect :=
  ⟨r.x - dx, r.y - dy, r.w + dx + dx, r.h + dy + dy⟩

/-- `content.getBounds()` of the modelled state. -/
def CallOutBox.contentBounds (cb : CallOutBox) : IntRect :=
  ⟨cb.contentPos.x, cb.contentPos.y, cb.contentW, cb.contentH⟩

/-- `CallOutBox::refreshPath`: invalidate the cached background and
rebuild the outline as a bubble around the expanded content bounds,
bounded by the local bounds, with the arrow tip at `targetPoint`
translated into local coordinates, corner size 9 and arrow base width
`arrowSize * 0.7f`. -/
def CallOutBox.refreshPath (cb : CallOutBox) : CallOutBox :=
  { cb with
      background := none
      outline := some
        { body := (cb.contentBounds.toF).expandedBy bubbleGap bubbleGap
          maximumArea := (⟨0, 0, cb.bounds.w, cb.bounds.h⟩ : IntRect).toF
          tip := ⟨cb.targetPoint.x - Frac.ofInt cb.bounds.x,
            cb.targetPoint.y - Frac.ofInt cb.bounds.y⟩
          cornerSize := Frac.ofInt 9
          arrowBaseWidth := cb.arrowSize * ⟨7, 10, by norm_num⟩ } }

/-- `CallOutBox::resized`: place the content at
`(borderSpace, borderSpace)` and rebuild the path. -/
def CallOutBox.resized (cb : CallOutBox) : CallOutBox :=
  ({ cb with contentPos := ⟨cb.borderSpace, cb.borderSpace⟩ }).refreshPath

/-- `CallOutBox::moved`: rebuild the path. -/
def CallOutBox.moved (cb : CallOutBox) : CallOutBox := cb.refreshPath

/-- Modelled from the spec: `Component::setBounds` stores the new bounds
and notifies the component, which reacts through its `resized` and
`moved` callbacks (host framework, not under src/; the callbacks are
modelled as always firing). -/
def CallOutBox.setBounds (cb : CallOutBox) (b : IntRect) : CallOutBox :=
  (({ cb with bounds := b }).resized).moved

/-- The placement inputs of a pass of `updatePosition` on state `cb`. -/
def CallOutBox.placeInput (cb : CallOutBox) (newAreaToPointTo newAreaToFitIn : IntRect) :
    PlaceInput :=
  ⟨newAreaToPointTo, newAreaToFitIn, cb.contentW, cb.contentH, cb.borderSpace, cb.arrowSize⟩

/-- `CallOutBox::updatePosition`: store the two areas, run the candidate
loop, store the chosen anchor in `targetPoint` and apply the chosen
bounds. -/
def CallOutBox.updatePosition (cb : CallOutBox) (newAreaToPointTo newAreaToFitIn : IntRect) :
    CallOutBox :=
  let inp := cb.placeInput newAreaToPointTo newAreaToFitIn
  let r := placeResult inp cb.targetPoint
  ({ cb with
      targetArea := newAreaToPointTo
      availableArea := newAreaToFitIn
      targetPoint := r.targetPoint }).setBounds ⟨r.posX, r.posY, popupW inp, popupH inp⟩

/-- The `CallOutBox` constructor with a parent component: members start
as `borderSpace (20), arrowSize (16.0f)`, the content is added, the
position is computed against the parent's local bounds, and the box is
made visible. -/
def CallOutBox.construct (contentW contentH : ℤ) (area parentBounds : IntRect) : CallOutBox :=
  let cb0 : CallOutBox :=
    { borderSpace := 20
      arrowSize := Frac.ofInt 16
      contentW := contentW
      contentH := contentH
      contentPos := ⟨0, 0⟩
      bounds := ⟨0, 0, 0, 0⟩
      targetArea := ⟨0, 0, 0, 0⟩
      availableArea := ⟨0, 0, 0, 0⟩
      targetPoint := ⟨Frac.ofInt 0, Frac.ofInt 0⟩
      outline := none
      background := none
      visible := false
      modal := false
      exitCode := none
      pending := [] }
  { cb0.updatePosition area parentBounds with visible := true }

/-- `CallOutBox::setArrowSize`: store the new arrow size, recompute
`borderSpace = jmax (20, (int) arrowSize)` and rebuild the path. -/
def CallOutBox.setArrowSize (cb : CallOutBox) (newSize : Frac) : CallOutBox :=
  ({ cb with arrowSize := newSize, borderSpace := max 20 (cTrunc newSize) }).refreshPath

/-- `CallOutBox::hitTest`: containment of the point in the outline path
(an empty path, before any rebuild, contains nothing). -/
def CallOutBox.hitTest (cb : CallOutBox) (x y : ℤ) : Bool :=
  match cb.outline with
  | none => false
  | some bu => bu.containsPt ⟨Frac.ofInt x, Frac.ofInt y⟩

/-- `callOutBoxDismissCommandId = 0x4f83a04b`. -/
def callOutBoxDismissCommandId : ℤ := 0x4f83a04b

/-- `Component::exitModalState (code)`: leave the modal session with the
given return code (host framework, modelled). -/
def CallOutBox.exitModalState (cb : CallOutBox) (code : ℤ) : CallOutBox :=
  { cb with modal := false, exitCode := some code }

/-- `Component::setVisible` (host framework, modelled). -/
def CallOutBox.setVisible (cb : CallOutBox) (b : Bool) : CallOutBox :=
  { cb with visible := b }

/-- `Component::postCommandMessage`: enqueue an asynchronous same-thread
command message (host framework, modelled as appending to the queue). -/
def CallOutBox.postCommandMessage (cb : CallOutBox) (commandId : ℤ) : CallOutBox :=
  { cb with pending := cb.pending ++ [commandId] }

/-- `CallOutBox::inputAttemptWhenModal`: with the current pointer
position (already translated into parent coordinates, as
`getMouseXYRelative() + getBounds().getPosition()` does), either post the
asynchronous dismiss message (pointer inside the target area) or exit the
modal state with code 0 and hide the box synchronously. -/
def CallOutBox.inputAttemptWhenModal (cb : CallOutBox) (mousePos : IntPoint) : CallOutBox :=
  if cb.targetArea.containsPt mousePos then
    cb.postCommandMessage callOutBoxDismissCommandId
  else
    (cb.exitModalState 0).setVisible false

/-- `CallOutBox::handleCommandMessage`: the deferred dismissal. -/
def CallOutBox.handleCommandMessage (cb : CallOutBox) (commandId : ℤ) : CallOutBox :=
  if commandId = callOutBoxDismissCommandId then
    (cb.exitModalState 0).setVisible false
  else cb

/-- The placement inputs of the spec's concrete scenario: target area
(100,100,50,20), available area (0,0,800,600), content 200 by 100, the
constructor's `borderSpace = 20` and `arrowSize = 16`. -/
def cfgC1 : PlaceInput :=
  ⟨⟨100, 100, 50, 20⟩, ⟨0, 0, 800, 600⟩, 200, 100, 20, Frac.ofInt 16⟩

/-- The box state produced by constructing a `CallOutBox` in the spec's
concrete scenario. -/
def stC1 : CallOutBox :=
  CallOutBox.construct 200 100 ⟨100, 100, 50, 20⟩ ⟨0, 0, 800, 600⟩

/-- A demonstration state used to instantiate hypothesis-bearing theorems
at concrete inputs. -/
def cbDemo : CallOutBox :=
  ⟨20, Frac.ofInt 16, 200, 100, ⟨0, 0⟩, ⟨0, 0, 0, 0⟩, ⟨100, 100, 50, 20⟩,
    ⟨0, 0, 800, 600⟩, ⟨Frac.ofInt 0, Frac.ofInt 0⟩, none, none, true, true, none, []⟩

/-- A placement input whose target area lies about `2 * 10^9` units away
from a small available area, so that every candidate's score reaches the
`1.0e9f` sentinel; the coordinates fit comfortably in a 32-bit `int`. -/
def cfgFar : PlaceInput :=
  ⟨⟨2000000000, 0, 10, 10⟩, ⟨0, 0, 100, 100⟩, 10, 10, 20, Frac.ofInt 16⟩

/-- The outward unit normal of each candidate edge of the target area, in
the enumeration order bottom, right, left, top. -/
def outwardNormal : Fin 4 → ℤ × ℤ
  | ⟨0, _⟩ => (0, 1)
  | ⟨1, _⟩ => (1, 0)
  | ⟨2, _⟩ => (-1, 0)
  | ⟨3, _⟩ => (0, -1)
  | ⟨n + 4, hlt⟩ => absurd hlt (by omega)

/-- The popup half-extent along each candidate edge's normal axis:
`hh` for the horizontal edges (bottom, top), `hw` for the vertical
edges (right, left). -/
def normalHalf (inp : PlaceInput) : Fin 4 → ℤ
  | ⟨0, _⟩ => hh inp
  | ⟨1, _⟩ => hw inp
  | ⟨2, _⟩ => hw inp
  | ⟨3, _⟩ => hh inp
  | ⟨n + 4, hlt⟩ => absurd hlt (by omega)

/-- The probe-segment half-length along each candidate edge's tangential
axis: `hwReduced` for the horizontal edges, `hhReduced` for the vertical
edges. -/
def tangentHalf (inp : PlaceInput) : Fin 4 → Frac
  | ⟨0, _⟩ => hwReduced inp
  | ⟨1, _⟩ => hhReduced inp
  | ⟨2, _⟩ => hhReduced inp
  | ⟨3, _⟩ => hwReduced inp
  | ⟨n + 4, hlt⟩ => absurd hlt (by omega)

/-- The probe-segment description asserted by the spec sentence of claim
C4, written from the spec's words for comparison with the code: the
segment is centred on the edge's anchor point offset from the edge by
`borderSpace - arrowSize` along the outward normal, and is oriented
perpendicular to the edge (parallel to the outward normal).  The
tangential half-length clause is left out: the refutation needs only
these clauses. -/
def probeSpecC4 (inp : PlaceInput) (i : Fin 4) : Prop :=
  ((probeLines inp i).p1.x.val + (probeLines inp i).p2.x.val) / 2
      = (targets inp i).x.val + (arrowIndent inp).val * (outwardNormal i).1
  ∧ ((probeLines inp i).p1.y.val + (probeLines inp i).p2.y.val) / 2
      = (targets inp i).y.val + (arrowIndent inp).val * (outwardNormal i).2
  ∧ ((probeLines inp i).p2.x.val - (probeLines inp i).p1.x.val) * ((outwardNormal i).2 : ℚ)
      - ((probeLines inp i).p2.y.val - (probeLines inp i).p1.y.val) * ((outwardNormal i).1 : ℚ)
      = 0

/-- Invariant of the candidate-selection fold after processing the
candidates in `l`: either nothing has beaten the sentinel yet, or the
recorded candidate `c` has the (first-seen) minimal score among the
processed candidates. -/
def SelInv (inp : PlaceInput) (l : List (Fin 4)) (res : Score × Option (Fin 4)) : Prop :=
  match res.2 with
  | none => res.1 = initialNearest ∧ ∀ j ∈ l, ScoreLeR initialNearest (candScore inp j)
  | some c => c ∈ l ∧ res.1 = candScore inp c
      ∧ ScoreLtR (candScore inp c) initialNearest
      ∧ (∀ j ∈ l, ScoreLeR (candScore inp c) (candScore inp j))
      ∧ (∀ j ∈ l, j < c → ScoreLtR (candScore inp c) (candScore inp j))

/-- Agreement between the source loop state (`placeStep`) and the
instrumented selection state (`selStep`): same running minimum, and the
recorded `targetPoint` and position match the recorded candidate. -/
def PlaceRel (inp : PlaceInput) (tp0 : FPoint) (st : PlaceState)
    (res : Score × Option (Fin 4)) : Prop :=
  st.nearest = res.1
  ∧ (res.2 = none → st.targetPoint = tp0 ∧ st.posX = 0 ∧ st.posY = 0)
  ∧ ∀ c : Fin 4, res.2 = some c →
      st.targetPoint = targets inp c
      ∧ st.posX = cTrunc ((tentativeCentre inp c).x - Frac.ofInt (hw inp))
      ∧ st.posY = cTrunc ((tentativeCentre inp c).y - Frac.ofInt (hh inp))

theorem ScoreLeR_refl (s : Score) : ScoreLeR s s := le_refl _

theorem ScoreLtR_le {s t : Score} (h : ScoreLtR s t) : ScoreLeR s t := le_of_lt h

theorem ScoreLtR_of_lt_of_le {s t u : Score} (h1 : ScoreLtR s t) (h2 : ScoreLeR t u) :
    ScoreLtR s u := lt_of_lt_of_le h1 h2

theorem ScoreLeR_trans {s t u : Score} (h1 : ScoreLeR s t) (h2 : ScoreLeR t u) :
    ScoreLeR s u := le_trans h1 h2

theorem ScoreLtR_irrefl {s t : Score} (h1 : ScoreLtR s t) (h2 : ScoreLeR t s) : False :=
  absurd h2 (not_le.mpr h1)

theorem selStep_inv (inp : PlaceInput) (l : List (Fin 4)) (res : Score × Option (Fin 4))
    (i : Fin 4) (hInv : SelInv inp l res) (hord : ∀ j ∈ l, j < i) :
    SelInv inp (l ++ [i]) (selStep inp res i) := by
  obtain ⟨sc, o⟩ := res
  unfold selStep
  rcases o with _ | c
  · obtain ⟨hs, hall⟩ := hInv
    dsimp at hs ⊢
    subst hs
    by_cases hb : Score.ltB (candScore inp i) initialNearest = true
    · rw [if_pos hb]
      have hlt := (Score.ltB_iff _ _).mp hb
      refine ⟨by simp, rfl, hlt, ?_, ?_⟩
      · intro j hj
        rcases List.mem_append.mp hj with hj | hj
        · exact ScoreLtR_le (ScoreLtR_of_lt_of_le hlt (hall j hj))
        · rw [List.mem_singleton.mp hj]
          exact ScoreLeR_refl _
      · intro j hj hji
        rcases List.mem_append.mp hj with hj | hj
        · exact ScoreLtR_of_lt_of_le hlt (hall j hj)
        · rw [List.mem_singleton.mp hj] at hji
          exact absurd hji (lt_irrefl i)
    · rw [if_neg hb]
      have hle := Score.not_ltB _ _ (show Score.ltB (candScore inp i) initialNearest = false by simpa using hb)
      refine ⟨rfl, ?_⟩
      intro j hj
      rcases List.mem_append.mp hj with hj | hj
      · exact hall j hj
      · rw [List.mem_singleton.mp hj]
        exact hle
  · obtain ⟨hmem, hs, hsent, hall, hfirst⟩ := hInv
    dsimp at hs ⊢
    subst hs
    by_cases hb : Score.ltB (candScore inp i) (candScore inp c) = true
    · rw [if_pos hb]
      have hlt := (Score.ltB_iff _ _).mp hb
      refine ⟨by simp, rfl, ScoreLtR_of_lt_of_le hlt (ScoreLtR_le hsent), ?_, ?_⟩
      · intro j hj
        rcases List.mem_append.mp hj with hj | hj
        · exact ScoreLtR_le (ScoreLtR_of_lt_of_le hlt (hall j hj))
        · rw [List.mem_singleton.mp hj]
          exact ScoreLeR_refl _
      · intro j hj hji
        rcases List.mem_append.mp hj with hj | hj
        · exact ScoreLtR_of_lt_of_le hlt (hall j hj)
        · rw [List.mem_singleton.mp hj] at hji
          exact absurd hji (lt_irrefl i)
    · rw [if_neg hb]
      have hle := Score.not_ltB _ _ (show Score.ltB (candScore inp i) (candScore inp c) = false by simpa using hb)
      refine ⟨List.mem_append.mpr (Or.inl hmem), rfl, hsent, ?_, ?_⟩
      · intro j hj
        rcases List.mem_append.mp hj with hj | hj
        · exact hall j hj
        · rw [List.mem_singleton.mp hj]
          exact hle
      · intro j hj hji
        rcases List.mem_append.mp hj with hj | hj
        · exact hfirst j hj hji
        · rw [List.mem_singleton.mp hj] at hji
          exact absurd (hord c hmem) (by omega)

theorem placeRel_step (inp : PlaceInput) (tp0 : FPoint) (st : PlaceState)
    (res : Score × Option (Fin 4)) (i : Fin 4) (h : PlaceRel inp tp0 st res) :
    PlaceRel inp tp0 (placeStep inp st i) (selStep inp res i) := by
  obtain ⟨h1, h2, h3⟩ := h
  unfold placeStep selStep
  rw [h1]
  by_cases hb : Score.ltB (candScore inp i) res.1 = true
  · rw [if_pos hb, if_pos hb]
    refine ⟨rfl, by simp, ?_⟩
    intro c hc
    obtain rfl : i = c := by simpa using hc
    exact ⟨rfl, rfl, rfl⟩
  · rw [if_neg hb, if_neg hb]
    exact ⟨h1, h2, h3⟩

theorem placeRel_fold (inp : PlaceInput) (tp0 : FPoint) (l : List (Fin 4)) (st : PlaceState)
    (res : Score × Option (Fin 4)) (h : PlaceRel inp tp0 st res) :
    PlaceRel inp tp0 (List.foldl (placeStep inp) st l) (List.foldl (selStep inp) res l) := by
  induction l generalizing st res with
  | nil => exact h
  | cons i l ih => exact ih _ _ (placeRel_step inp tp0 st res i h)

/-- Claim C5: for every target area, available area and state,
`updatePosition` sets bounds of width `contentW + 2 * borderSpace` and
height `contentH + 2 * borderSpace`; with non-negative content dimensions
the chosen bounds therefore measure at least `2 * borderSpace` in each
direction (and the function is total: it always produces a rectangle). -/
theorem updatePosition_bounds_size (ta aa : IntRect) (cb : CallOutBox) :
    ((cb.updatePosition ta aa).bounds.w = cb.contentW + cb.borderSpace * 2
      ∧ (cb.updatePosition ta aa).bounds.h = cb.contentH + cb.borderSpace * 2)
    ∧ (0 ≤ cb.contentW → 2 * cb.borderSpace ≤ (cb.updatePosition ta aa).bounds.w)
    ∧ (0 ≤ cb.contentH → 2 * cb.borderSpace ≤ (cb.updatePosition ta aa).bounds.h) := by
  have hwidth : (cb.updatePosition ta aa).bounds.w = cb.contentW + cb.borderSpace * 2 := rfl
  have hheight : (cb.updatePosition ta aa).bounds.h = cb.contentH + cb.borderSpace * 2 := rfl
  refine ⟨⟨hwidth, hheight⟩, ?_, ?_⟩
  · intro hcw
    rw [hwidth]
    omega
  · intro hch
    rw [hheight]
    omega

/-- Witness for C5 at a concrete state with non-negative content size. -/
theorem updatePosition_bounds_size_witness :
    2 * cbDemo.borderSpace ≤ ((cbDemo.updatePosition ⟨100, 100, 50, 20⟩ ⟨0, 0, 800, 600⟩).bounds).w
    ∧ 2 * cbDemo.borderSpace ≤ ((cbDemo.updatePosition ⟨100, 100, 50, 20⟩ ⟨0, 0, 800, 600⟩).bounds).h :=
  ⟨(updatePosition_bounds_size ⟨100, 100, 50, 20⟩ ⟨0, 0, 800, 600⟩ cbDemo).2.1 (by decide),
    (updatePosition_bounds_size ⟨100, 100, 50, 20⟩ ⟨0, 0, 800, 600⟩ cbDemo).2.2 (by decide)⟩

/-- Claim C7: while modal, an input attempt with the pointer inside the
stored target area only posts the asynchronous dismiss command message,
leaving visibility and modal state untouched in that call; with the
pointer anywhere outside the target area it exits the modal state with
code 0 and hides the popup synchronously, posting nothing. -/
theorem inputAttemptWhenModal_cases (cb : CallOutBox) (mousePos : IntPoint) :
    (cb.targetArea.containsPt mousePos = true →
      cb.inputAttemptWhenModal mousePos =
          { cb with pending := cb.pending ++ [callOutBoxDismissCommandId] }
        ∧ (cb.inputAttemptWhenModal mousePos).visible = cb.visible
        ∧ (cb.inputAttemptWhenModal mousePos).modal = cb.modal)
    ∧ (cb.targetArea.containsPt mousePos = false →
      (cb.inputAttemptWhenModal mousePos).visible = false
        ∧ (cb.inputAttemptWhenModal mousePos).modal = false
        ∧ (cb.inputAttemptWhenModal mousePos).exitCode = some 0
        ∧ (cb.inputAttemptWhenModal mousePos).pending = cb.pending) := by
  constructor
  · intro h
    simp [CallOutBox.inputAttemptWhenModal, h, CallOutBox.postCommandMessage]
  · intro h
    simp [CallOutBox.inputAttemptWhenModal, h, CallOutBox.exitModalState,
      CallOutBox.setVisible]

/-- Witness for C7: a pointer position inside the target area defers the
dismissal, one outside dismisses synchronously. -/
theorem inputAttemptWhenModal_cases_witness :
    (cbDemo.inputAttemptWhenModal ⟨110, 110⟩ =
        { cbDemo with pending := cbDemo.pending ++ [callOutBoxDismissCommandId] })
    ∧ (cbDemo.inputAttemptWhenModal ⟨0, 0⟩).visible = false :=
  ⟨((inputAttemptWhenModal_cases cbDemo ⟨110, 110⟩).1 (by decide)).1,
    ((inputAttemptWhenModal_cases cbDemo ⟨0, 0⟩).2 (by decide)).1⟩

/-- Claim C9: the outline rebuild is deterministic — it depends only on
the content bounds, local bounds, target point, position and arrow size —
and idempotent: rebuilding twice yields the same outline, hence the same
hit-test answer for every probe point, as rebuilding once. -/
theorem refreshPath_deterministic_idempotent (cb : CallOutBox) :
    (cb.refreshPath.refreshPath.outline = cb.refreshPath.outline
      ∧ ∀ x y : ℤ, cb.refreshPath.refreshPath.hitTest x y = cb.refreshPath.hitTest x y)
    ∧ ∀ cb2 : CallOutBox,
        cb.contentPos = cb2.contentPos → cb.contentW = cb2.contentW →
        cb.contentH = cb2.contentH → cb.bounds = cb2.bounds →
        cb.targetPoint = cb2.targetPoint → cb.arrowSize = cb2.arrowSize →
        cb.refreshPath.outline = cb2.refreshPath.outline := by
  refine ⟨⟨rfl, fun x y => rfl⟩, ?_⟩
  intro cb2 h1 h2 h3 h4 h5 h6
  simp [CallOutBox.refreshPath, CallOutBox.contentBounds, h1, h2, h3, h4, h5, h6]

/-- Witness for C9: two states differing only in fields irrelevant to the
outline produce the same outline. -/
theorem refreshPath_deterministic_idempotent_witness :
    cbDemo.refreshPath.outline = ({ cbDemo with visible := false } : CallOutBox).refreshPath.outline :=
  (refreshPath_deterministic_idempotent cbDemo).2 { cbDemo with visible := false }
    rfl rfl rfl rfl rfl rfl

/-- Claim C10: `setArrowSize` updates only `arrowSize`, `borderSpace`,
the outline and the cached background (reset to null); it does not re-run
the placement solver, so the bounds, stored areas, arrow anchor and
content position are unchanged. -/
theorem setArrowSize_frame (cb : CallOutBox) (s : Frac) :
    (cb.setArrowSize s).arrowSize = s
    ∧ (cb.setArrowSize s).borderSpace = max 20 (cTrunc s)
    ∧ (cb.setArrowSize s).background = none
    ∧ (cb.setArrowSize s).outline = some
        { body := (cb.contentBounds.toF).expandedBy bubbleGap bubbleGap
          maximumArea := (⟨0, 0, cb.bounds.w, cb.bounds.h⟩ : IntRect).toF
          tip := ⟨cb.targetPoint.x - Frac.ofInt cb.bounds.x,
            cb.targetPoint.y - Frac.ofInt cb.bounds.y⟩
          cornerSize := Frac.ofInt 9
          arrowBaseWidth := s * ⟨7, 10, by norm_num⟩ }
    ∧ (cb.setArrowSize s).bounds = cb.bounds
    ∧ (cb.setArrowSize s).targetArea = cb.targetArea
    ∧ (cb.setArrowSize s).availableArea = cb.availableArea
    ∧ (cb.setArrowSize s).targetPoint = cb.targetPoint
    ∧ (cb.setArrowSize s).contentPos = cb.contentPos
    ∧ (cb.setArrowSize s).contentW = cb.contentW
    ∧ (cb.setArrowSize s).contentH = cb.contentH
    ∧ (cb.setArrowSize s).visible = cb.visible
    ∧ (cb.setArrowSize s).modal = cb.modal
    ∧ (cb.setArrowSize s).exitCode = cb.exitCode
    ∧ (cb.setArrowSize s).pending = cb.pending :=
  ⟨rfl, rfl, rfl, rfl, rfl, rfl, rfl, rfl, rfl, rfl, rfl, rfl, rfl, rfl, rfl⟩

/-- Claim C6 counterexample: after `setArrowSize (20.5)` the recomputed
`borderSpace` is `jmax (20, (int) 20.5) = 20`, which is strictly below
`max (20, arrowSize) = 20.5` — the claimed invariant fails for
non-integral arguments above 20. -/
theorem setArrowSize_invariant_cex :
    ¬ (max (20 : ℚ) ((cbDemo.setArrowSize ⟨41, 2, by norm_num⟩).arrowSize.val)
        ≤ ((cbDemo.setArrowSize ⟨41, 2, by norm_num⟩).borderSpace : ℚ)) := by
  have h1 : (cbDemo.setArrowSize ⟨41, 2, by norm_num⟩).borderSpace = 20 := by decide
  have h2 : (cbDemo.setArrowSize ⟨41, 2, by norm_num⟩).arrowSize.val = 41 / 2 := by
    show Frac.val ⟨41, 2, by norm_num⟩ = 41 / 2
    rw [Frac.val]
    dsimp only
    norm_num
  rw [h1, h2]
  simp only [max_le_iff, not_and]
  intro h3
  norm_num

/-- Claim C6 amended: at construction `borderSpace = 20` does satisfy
`borderSpace ≥ max (20, arrowSize)` (the arrow size starts at 16), and
`setArrowSize s` recomputes `borderSpace = max (20, trunc s)`; hence
`borderSpace > s - 1` always, and `borderSpace ≥ max (20, s)` exactly
when the fractional part is absent (`trunc s = s`), e.g. for integral
arguments — but not in general, as the counterexample shows. -/
theorem borderSpace_invariant_amended :
    (∀ (cW cH : ℤ) (ta aa : IntRect),
      (CallOutBox.construct cW cH ta aa).borderSpace = 20
      ∧ max (20 : ℚ) ((CallOutBox.construct cW cH ta aa).arrowSize.val) ≤
          ((CallOutBox.construct cW cH ta aa).borderSpace : ℚ))
    ∧ (∀ (cb : CallOutBox) (s : Frac),
        (cb.setArrowSize s).borderSpace = max 20 (cTrunc s))
    ∧ (∀ (cb : CallOutBox) (s : Frac),
        s.val - 1 < ((cb.setArrowSize s).borderSpace : ℚ))
    ∧ ∀ (cb : CallOutBox) (s : Frac), (cTrunc s : ℚ) = s.val →
        max (20 : ℚ) s.val ≤ ((cb.setArrowSize s).borderSpace : ℚ) := by
  refine ⟨?_, fun cb s => rfl, ?_, ?_⟩
  · intro cW cH ta aa
    refine ⟨rfl, ?_⟩
    have ha : (CallOutBox.construct cW cH ta aa).arrowSize = Frac.ofInt 16 := rfl
    have hb : (CallOutBox.construct cW cH ta aa).borderSpace = 20 := rfl
    rw [ha, hb, Frac.val_ofInt]
    norm_num
  · intro cb s
    have h1 := cTrunc_gt_sub_one s
    have h2 : (cb.setArrowSize s).borderSpace = max 20 (cTrunc s) := rfl
    have h3 : (cTrunc s : ℚ) ≤ ((max 20 (cTrunc s) : ℤ) : ℚ) := by
      exact_mod_cast le_max_right 20 (cTrunc s)
    rw [h2]
    linarith
  · intro cb s hint
    have h2 : (cb.setArrowSize s).borderSpace = max 20 (cTrunc s) := rfl
    rw [h2]
    have hcast : ((max 20 (cTrunc s) : ℤ) : ℚ) = max (20 : ℚ) ((cTrunc s : ℤ) : ℚ) := by
      push_cast
      rfl
    rw [hcast, hint]

/-- Witness for C6: the integral-argument clause of the amended claim
instantiated at `setArrowSize 25`. -/
theorem borderSpace_invariant_amended_witness :
    max (20 : ℚ) ((Frac.ofInt 25).val) ≤
      ((cbDemo.setArrowSize (Frac.ofInt 25)).borderSpace : ℚ) :=
  borderSpace_invariant_amended.2.2.2 cbDemo (Frac.ofInt 25)
    (by rw [show cTrunc (Frac.ofInt 25) = 25 from by decide, Frac.val_ofInt])

/-- Claim C1: in the spec's concrete scenario — target (100,100,50,20)
inside available (0,0,800,600), content 200 by 100, border space 20,
arrow size 16 — the solver picks the bottom edge (candidate 0), the
bounds measure 240 by 140, and the arrow tip is the target's
bottom-centre point (125, 120). -/
theorem scenario_bottom_edge :
    chosenEdge cfgC1 = some 0
    ∧ stC1.bounds.w = 240 ∧ stC1.bounds.h = 140
    ∧ stC1.targetPoint.x.val = 125 ∧ stC1.targetPoint.y.val = 120 := by
  refine ⟨by decide, by decide, by decide, ?_, ?_⟩
  · rw [show stC1.targetPoint.x = Frac.ofInt 125 from rfl, Frac.val_ofInt]
    norm_num
  · rw [show stC1.targetPoint.y = Frac.ofInt 120 from rfl, Frac.val_ofInt]
    norm_num

/-- Claim C2: for every placement input and candidate edge, the penalty
flag is set exactly when neither original (unclamped) probe endpoint lies
inside `centrePointArea`, and the real-valued score equals the Euclidean
distance from the tentative (clamped) centre to the edge's anchor point
plus 1000 exactly under that condition. -/
theorem candScore_characterisation (inp : PlaceInput) (i : Fin 4) :
    ((candScore inp i).pen = true ↔
      (¬ (centrePointArea inp).containsProp (probeLines inp i).p1
        ∧ ¬ (centrePointArea inp).containsProp (probeLines inp i).p2))
    ∧ (candScore inp i).dSq = distSq (tentativeCentre inp i) (targets inp i)
    ∧ (Real.sqrt (((candScore inp i).dSq.val : ℚ) : ℝ)
          + (if (candScore inp i).pen then (1000 : ℝ) else 0)
        = Real.sqrt (((distSq (tentativeCentre inp i) (targets inp i)).val : ℚ) : ℝ)
          + (if (¬ (centrePointArea inp).containsProp (probeLines inp i).p1
                ∧ ¬ (centrePointArea inp).containsProp (probeLines inp i).p2)
             then (1000 : ℝ) else 0)) := by
  have hpen : (candScore inp i).pen = true ↔
      (¬ (centrePointArea inp).containsProp (probeLines inp i).p1
        ∧ ¬ (centrePointArea inp).containsProp (probeLines inp i).p2) := by
    show penalizedB inp i = true ↔ _
    unfold penalizedB
    rw [Bool.not_eq_true', Bool.or_eq_false_iff]
    rw [← FRect.containsPt_iff, ← FRect.containsPt_iff]
    simp [Bool.not_eq_true]
  refine ⟨hpen, rfl, ?_⟩
  rw [if_congr hpen rfl rfl]
  rfl

/-- Claim C8: `hitTest` answers exactly containment in the current
outline path; in the concrete constructed state, a point inside the
popup's bounding rectangle but in a transparent corner outside the
rounded outline tests as outside, while points in the rounded body and
in the arrow notch test as inside. -/
theorem hitTest_outline_containment :
    (∀ (cb : CallOutBox) (x y : ℤ),
      cb.hitTest x y = true ↔
        ∃ bu, cb.outline = some bu ∧ bu.containsPt ⟨Frac.ofInt x, Frac.ofInt y⟩ = true)
    ∧ (stC1.hitTest 16 16 = false
        ∧ 0 ≤ (16 : ℤ) ∧ 16 < stC1.bounds.w ∧ 16 < stC1.bounds.h)
    ∧ stC1.hitTest 100 70 = true
    ∧ stC1.hitTest 120 10 = true := by
  refine ⟨?_, ⟨by decide, by decide, by decide, by decide⟩, by decide, by decide⟩
  intro cb x y
  unfold CallOutBox.hitTest
  cases houtl : cb.outline with
  | none => simp
  | some bu => simp

/-- Claim C4 counterexample: in the concrete scenario the bottom probe
segment has its midpoint at y = 186, not at the edge midpoint offset by
`borderSpace - arrowSize = 4` (y = 124) as the claim describes, so the
spec's probe-segment description is false for the bottom edge. -/
theorem probeSpec_cex : ¬ probeSpecC4 cfgC1 0 := by
  intro h
  obtain ⟨hx, hy, hperp⟩ := h
  rw [show (probeLines cfgC1 0).p1.y = Frac.ofInt 186 from rfl,
    show (probeLines cfgC1 0).p2.y = Frac.ofInt 186 from rfl,
    show (targets cfgC1 0).y = Frac.ofInt 120 from rfl,
    show arrowIndent cfgC1 = Frac.ofInt 4 from rfl,
    show (outwardNormal 0).2 = 1 from rfl] at hy
  rw [Frac.val_ofInt, Frac.val_ofInt, Frac.val_ofInt] at hy
  norm_num at hy

/-- Claim C4 amended: each probe segment is centred on the edge's anchor
point pushed outward along the edge normal by the popup's half-extent on
that axis minus `borderSpace - arrowSize`; it runs along the edge's
tangential axis (perpendicular to the outward normal, parallel to the
edge), with half-length `hw - 3 * borderSpace` or `hh - 3 * borderSpace`
(the popup half-extent on the tangential axis, by truncating integer
division, minus three border spaces). -/
theorem probeLines_geometry (inp : PlaceInput) (i : Fin 4) :
    (((probeLines inp i).p1.x.val + (probeLines inp i).p2.x.val) / 2
        = (targets inp i).x.val
          + (((normalHalf inp i : ℤ) : ℚ) - (arrowIndent inp).val) * ((outwardNormal i).1 : ℚ)
      ∧ ((probeLines inp i).p1.y.val + (probeLines inp i).p2.y.val) / 2
        = (targets inp i).y.val
          + (((normalHalf inp i : ℤ) : ℚ) - (arrowIndent inp).val) * ((outwardNormal i).2 : ℚ))
    ∧ ((probeLines inp i).p2.x.val - (probeLines inp i).p1.x.val) * ((outwardNormal i).1 : ℚ)
        + ((probeLines inp i).p2.y.val - (probeLines inp i).p1.y.val) * ((outwardNormal i).2 : ℚ)
        = 0
    ∧ ((probeLines inp i).p2.x.val - (probeLines inp i).p1.x.val) ^ 2
        + ((probeLines inp i).p2.y.val - (probeLines inp i).p1.y.val) ^ 2
        = (2 * (tangentHalf inp i).val) ^ 2 := by
  fin_cases i <;>
    refine ⟨⟨?_, ?_⟩, ?_, ?_⟩ <;>
      simp only [probeLines, targets, FPoint.translated, normalHalf, tangentHalf,
        outwardNormal, arrowIndent, hwReduced, hhReduced, Frac.val_add, Frac.val_sub,
        Frac.val_neg, Frac.val_ofInt] <;>
      push_cast <;> ring

/-- Claim C3 counterexample: with the target area two billion units away
from a hundred-unit available area (all coordinates within a 32-bit
`int`), every candidate's score reaches the `1.0e9f` sentinel, so the
strict comparison never fires: no candidate edge is chosen, and
`targetPoint` keeps its stale previous value, equal to none of the four
anchors. -/
theorem selection_cex :
    (¬ ∃ c : Fin 4, chosenEdge cfgFar = some c)
    ∧ (placeResult cfgFar ⟨Frac.ofInt 0, Frac.ofInt 0⟩).targetPoint
        = ⟨Frac.ofInt 0, Frac.ofInt 0⟩
    ∧ ∀ i : Fin 4, targets cfgFar i ≠ ⟨Frac.ofInt 0, Frac.ofInt 0⟩ := by
  refine ⟨?_, rfl, ?_⟩
  · rintro ⟨c, hc⟩
    rw [show chosenEdge cfgFar = none from by decide] at hc
    exact Option.noConfusion hc
  · intro i
    fin_cases i <;> intro h <;>
      exact absurd (congrArg (fun p => p.x.num) h) (by decide)

/-- Claim C3 amended: whenever at least one candidate's score beats the
`1.0e9f` sentinel (the executable comparison `Score.ltB` against
`initialNearest`, equivalent to its real score being below 10^9 by
`Score.ltB_iff`), exactly one candidate edge is chosen: the loop
enumerates bottom, right, left, top, and the winner has minimal real
score, strictly beating every earlier candidate (strict less-than against
the running minimum makes the earliest minimum win ties); `targetPoint`
and the bounds position are those of the winner.  Without the hypothesis
no edge is chosen (see the counterexample). -/
theorem updatePosition_selects_first_minimum (inp : PlaceInput)
    (h : ∃ i : Fin 4, Score.ltB (candScore inp i) initialNearest = true) :
    ∃ c : Fin 4,
      chosenEdge inp = some c
      ∧ ScoreLtR (candScore inp c) initialNearest
      ∧ (∀ j : Fin 4, ScoreLeR (candScore inp c) (candScore inp j))
      ∧ (∀ j : Fin 4, j < c → ScoreLtR (candScore inp c) (candScore inp j))
      ∧ ∀ tp0 : FPoint,
          (placeResult inp tp0).targetPoint = targets inp c
          ∧ (placeResult inp tp0).posX
              = cTrunc ((tentativeCentre inp c).x - Frac.ofInt (hw inp))
          ∧ (placeResult inp tp0).posY
              = cTrunc ((tentativeCentre inp c).y - Frac.ofInt (hh inp)) := by
  have hmemAll : ∀ j : Fin 4, j ∈ ([0, 1, 2, 3] : List (Fin 4)) := by decide
  have inv0 : SelInv inp [] (initialNearest, none) := ⟨rfl, by simp⟩
  have inv1 := selStep_inv inp [] _ 0 inv0 (by simp)
  have inv2 := selStep_inv inp [0] _ 1 inv1 (by decide)
  have inv3 := selStep_inv inp [0, 1] _ 2 inv2 (by decide)
  have inv4 := selStep_inv inp [0, 1, 2] _ 3 inv3 (by decide)
  have hinv : SelInv inp [0, 1, 2, 3]
      (List.foldl (selStep inp) (initialNearest, none) [0, 1, 2, 3]) := inv4
  rcases hr2 : (List.foldl (selStep inp) (initialNearest, none) [0, 1, 2, 3]).2 with _ | c
  · exfalso
    obtain ⟨i, hi⟩ := h
    simp only [SelInv, hr2] at hinv
    exact ScoreLtR_irrefl ((Score.ltB_iff _ _).mp hi) (hinv.2 i (hmemAll i))
  · simp only [SelInv, hr2] at hinv
    obtain ⟨hmem, hbest, hsent, hall, hfirst⟩ := hinv
    refine ⟨c, hr2, hsent, fun j => hall j (hmemAll j),
      fun j hj => hfirst j (hmemAll j) hj, ?_⟩
    intro tp0
    have h0 : PlaceRel inp tp0 ⟨initialNearest, tp0, 0, 0⟩ (initialNearest, none) :=
      ⟨rfl, fun _ => ⟨rfl, rfl, rfl⟩, fun c2 hc2 => Option.noConfusion hc2⟩
    have hrel := placeRel_fold inp tp0 [0, 1, 2, 3] ⟨initialNearest, tp0, 0, 0⟩
      (initialNearest, none) h0
    exact hrel.2.2 c hr2

/-- Witness for the amended C3 at the concrete scenario, where the bottom
candidate scores 66 and beats the sentinel. -/
theorem updatePosition_selects_first_minimum_witness :
    ∃ c : Fin 4,
      chosenEdge cfgC1 = some c
      ∧ ScoreLtR (candScore cfgC1 c) initialNearest
      ∧ (∀ j : Fin 4, ScoreLeR (candScore cfgC1 c) (candScore cfgC1 j))
      ∧ (∀ j : Fin 4, j < c → ScoreLtR (candScore cfgC1 c) (candScore cfgC1 j))
      ∧ ∀ tp0 : FPoint,
          (placeResult cfgC1 tp0).targetPoint = targets cfgC1 c
          ∧ (placeResult cfgC1 tp0).posX
              = cTrunc ((tentativeCentre cfgC1 c).x - Frac.ofInt (hw cfgC1))
          ∧ (placeResult cfgC1 tp0).posY
              = cTrunc ((tentativeCentre cfgC1 c).y - Frac.ofInt (hh cfgC1)) :=
  updatePosition_selects_first_minimum cfgC1 ⟨0, by decide⟩
